import Mathlib

/-!
Verification of the loss composition and the global-conditioned recurrent decoder of
`src/src/models/gen_models.py` (classes `BaseMixin`, `EmbeddingPredictor`, `GRUCell`,
`DecoderGRU`).

Modelling conventions.
* Tensors are nested lists; a `(batch, time)` tensor is `Mat`, a `(batch, time, channel)`
  tensor is `T3`.  The batch dimension of `GRUCell` / `DecoderGRU` is elementwise in the
  source, so the cell and the decoder are embedded per sequence (vectors instead of
  `(batch, vector)` tensors).
* Raw batch data (`padded_batch.payload`, `time_steps`) are rationals; predictions and
  network parameters are reals (the cross-entropy needs `Real.exp` / `Real.log`).
* Real division is total in Lean with `x / 0 = 0`; the floating-point code produces an
  undefined (NaN/inf) value at a zero denominator.  Theorems about the unguarded
  divisions therefore state that the denominator is the literal mask count `0` and that
  the computation still returns a full result, rather than speaking about NaN itself.
* Python dict update/insertion is modelled by list append; this coincides with the dict
  semantics whenever the categorical feature names are distinct from the four reserved
  loss keys, which the relevant theorems assume.
-/

set_option linter.unusedVariables false
set_option maxHeartbeats 1600000

namespace MLEM

abbrev Mat (α : Type) := List (List α)

abbrev T3 (α : Type) := List (List (List α))

/-- `torch.sigmoid`. -/
noncomputable def sigmoid (x : ℝ) : ℝ := 1 / (1 + Real.exp (-x))

/-- The Gauss error function, used by the exact (non-tanh) GELU. -/
noncomputable def erf (x : ℝ) : ℝ :=
  2 / Real.sqrt Real.pi * ∫ t in (0:ℝ)..x, Real.exp (-(t ^ 2))

/-- `nn.GELU()` (exact variant): `x * Φ(x)`. -/
noncomputable def gelu (x : ℝ) : ℝ := x * (1 + erf (x / Real.sqrt 2)) / 2

/-- `nn.Linear` applied to one vector: each output coordinate is a dot product plus bias. -/
noncomputable def linear (w : Mat ℝ) (b : List ℝ) (x : List ℝ) : List ℝ :=
  List.zipWith (fun row bi => (List.zipWith (fun wj vj => wj * vj) row x).sum + bi) w b

/-- Python tensor indexing along a dimension of size `len`: a negative index counts from
the end (`-k ↦ len - k`), a non-negative index is used as is. -/
def pyIdx (i : ℤ) (len : ℕ) : ℕ := if i < 0 then ((len : ℤ) + i).toNat else i.toNat

/-- `tensor.long()` on one scalar: truncation toward zero. -/
def pyLong (q : ℚ) : ℤ := if q < 0 then ⌈q⌉ else ⌊q⌋

/-- `log (Σ exp zⱼ)`, the normalizer of a softmax over logits `z`. -/
noncomputable def logSumExp (z : List ℝ) : ℝ := Real.log ((z.map Real.exp).sum)

/-- One sample of `torch.nn.functional.cross_entropy` with label smoothing `ε` over
logits `z` and target class `y`: the smoothed target distribution puts mass
`1 - ε + ε/V` on `y` and `ε/V` elsewhere, so the loss is
`logSumExp z - ((1-ε)·z_y + (ε/V)·Σ z)`. -/
noncomputable def ceSample (smoothing : ℝ) (z : List ℝ) (y : ℤ) : ℝ :=
  logSumExp z - ((1 - smoothing) * z.getD y.toNat 0 + smoothing / (z.length : ℝ) * z.sum)

/-- `torch.nn.CrossEntropyLoss(reduction="mean", ignore_index=ig, label_smoothing=ε)`
applied to a `(batch, time, class)` logit tensor and a `(batch, time)` target tensor
(the source permutes the logits to `(batch, class, time)` only to satisfy the framework
call convention; the per-(batch, time) samples are the same).  Targets equal to the
ignore index are excluded from both the sum and the count. -/
noncomputable def ceMean (smoothing : ℝ) (ignoreIdx : ℤ) (dist : T3 ℝ) (labels : Mat ℤ) : ℝ :=
  let elems := ((dist.zip labels).map fun p => p.1.zip p.2).flatten
  let valid := elems.filter fun zy => zy.2 != ignoreIdx
  (valid.map fun zy => ceSample smoothing zy.1 zy.2).sum / (valid.length : ℝ)

namespace EmbeddingPredictor

/-- `self.criterion = nn.CrossEntropyLoss(reduction="mean", ignore_index=0)`
(gen_models.py line 247): no label smoothing. -/
noncomputable def criterion : T3 ℝ → Mat ℤ → ℝ := ceMean 0 0

end EmbeddingPredictor

namespace BaseMixin

/-- `self.ce_fn = nn.CrossEntropyLoss(reduction="mean", ignore_index=0, label_smoothing=0.15)`
(gen_models.py lines 121-123).  Constructed by `BaseMixin.__init__`; `BaseMixin.loss`
never applies it. -/
noncomputable def ce_fn : T3 ℝ → Mat ℤ → ℝ := ceMean (15 / 100) 0

end BaseMixin

/-- `padded_batch.payload[name]` (the raw `(batch, time)` tensor of one feature). -/
def payloadGet (payload : List (String × Mat ℚ)) (name : String) : Mat ℚ :=
  (List.lookup name payload).getD []

/-- `padded_batch.payload[name].long()[:, 1:]`. -/
def shiftedLabels (m : Mat ℚ) : Mat ℤ := m.map fun r => (r.map pyLong).drop 1

namespace EmbeddingPredictor

/-- `EmbeddingPredictor.loss` (gen_models.py lines 282-288): for each categorical
feature's predicted logit tensor, the unsmoothed mean cross-entropy against the
one-step-shifted ground-truth ids, ignore index 0. -/
noncomputable def loss (embDist : List (String × T3 ℝ)) (payload : List (String × Mat ℚ)) :
    List (String × ℝ) :=
  embDist.map fun nd => (nd.1, criterion nd.2 (shiftedLabels (payloadGet payload nd.1)))

end EmbeddingPredictor

/-- `self.mse_fn(gt_val, pred_val)` on one row: elementwise squared error. -/
noncomputable def mseRow (g : List ℚ) (p : List ℝ) : List ℝ :=
  List.zipWith (fun (gv : ℚ) (pv : ℝ) => ((gv : ℝ) - pv) ^ 2) g p

/-- `mask = gt_val != 0` on one row. -/
def maskRow (g : List ℚ) : List Bool := g.map fun v => decide (v ≠ 0)

/-- `mask = time_steps != -1` on one row. -/
def maskDeltaRow (r : List ℚ) : List Bool := r.map fun v => decide (v ≠ -1)

/-- Multiplication by a boolean mask tensor (`masked = loss * mask`). -/
noncomputable def applyMask (l : List ℝ) (m : List Bool) : List ℝ :=
  List.zipWith (fun v b => v * (if b then 1 else 0)) l m

/-- One sequence's term of the numeric-feature loss:
`masked_mse.sum(dim=1) / (mask != 0).sum(dim=1)` for one row. -/
noncomputable def rowMseTerm (g : List ℚ) (p : List ℝ) : ℝ :=
  (applyMask (mseRow g p) (maskRow g)).sum / ((maskRow g).count true : ℝ)

/-- One numeric feature's contribution to the loss
(`(masked_mse.sum(dim=1) / (mask != 0).sum(dim=1)).mean()`), with `gt` already shifted. -/
noncomputable def featureMse (gt : Mat ℚ) (ch : Mat ℝ) : ℝ :=
  (List.zipWith rowMseTerm gt ch).sum / ((List.zipWith rowMseTerm gt ch).length : ℝ)

/-- `pred[:, :, i]` for a Python index `i` (possibly negative). -/
noncomputable def sliceChannel (pred : T3 ℝ) (i : ℤ) : Mat ℝ :=
  pred.map fun row => row.map fun v => v.getD (pyIdx i v.length) 0

/-- `pred[:, :, -1]` (and the no-op `.squeeze(-1)`). -/
noncomputable def lastChannel (t : T3 ℝ) : Mat ℝ :=
  t.map fun row => row.map fun v => v.getD (v.length - 1) 0

/-- `t[:, :, :-1]`. -/
noncomputable def stripLast (t : T3 ℝ) : T3 ℝ := t.map fun row => row.map List.dropLast

/-- `tensor.diff(1)` on one row: consecutive finite differences. -/
def diffRow (r : List ℚ) : List ℚ := List.zipWith (fun a b => b - a) r (r.drop 1)

/-- The `for key, values in output["input_batch"].payload.items():` loop of
`BaseMixin.loss` (gen_models.py lines 137-153).  State: the accumulated
`total_mse_loss` and the `num_val_feature` countdown.  A key that is an embedding
feature name is skipped; otherwise the one-step-shifted ground truth is compared
against channel `-num_val_feature` of `pred` and the countdown decreases by one. -/
noncomputable def mseLoop (embNames : List String) (pred : T3 ℝ) :
    List (String × Mat ℚ) → ℝ → ℤ → ℝ × ℤ
  | [], acc, n => (acc, n)
  | kv :: rest, acc, n =>
    if kv.1 ∈ embNames then mseLoop embNames pred rest acc n
    else
      mseLoop embNames pred rest
        (acc + featureMse (kv.2.map (List.drop 1)) (sliceChannel pred (-n))) (n - 1)

/-- The whole of `delta_masked` (gen_models.py lines 156-160): elementwise squared error
between `time_steps.diff(1)` and `pred_delta`, multiplied by `(time_steps != -1)[:, 1:]`. -/
noncomputable def deltaMasked (ts : Mat ℚ) (pd : Mat ℝ) : Mat ℝ :=
  List.zipWith applyMask (List.zipWith mseRow (ts.map diffRow) pd)
    ((ts.map maskDeltaRow).map (List.drop 1))

/-- `(mask[:, 1:] != 0).sum()` of the delta mask. -/
def deltaMaskCount (ts : Mat ℚ) : ℕ :=
  (((ts.map maskDeltaRow).map (List.drop 1)).map fun r => r.count true).sum

/-- `delta_mse = delta_masked.sum() / (mask[:, 1:] != 0).sum()`
(gen_models.py line 161): a single fused average over the whole batch. -/
noncomputable def deltaMseVal (ts : Mat ℚ) (pd : Mat ℝ) : ℝ :=
  ((deltaMasked ts pd).map List.sum).sum / (deltaMaskCount ts : ℝ)

/-- The mixing configuration of `BaseMixin` (`model_conf`). -/
structure ModelConf where
  use_deltas : Bool
  mse_weight : ℝ
  CE_weight : ℝ
  delta_weight : ℝ

/-- `pred` after the optional stripping of the trailing delta channel
(gen_models.py lines 131-133). -/
noncomputable def lossPred (conf : ModelConf) (predIn : T3 ℝ) : T3 ℝ :=
  if conf.use_deltas then stripLast predIn else predIn

/-- `pred_delta` (gen_models.py line 132); only consumed when `use_deltas` is set. -/
noncomputable def lossPredDelta (conf : ModelConf) (predIn : T3 ℝ) : Mat ℝ :=
  if conf.use_deltas then lastChannel predIn else []

/-- The final value of the `total_mse_loss` accumulator of `BaseMixin.loss`. -/
noncomputable def lossTotalMse (conf : ModelConf) (allNumericSize : ℕ)
    (embNames : List String) (predIn : T3 ℝ) (payload : List (String × Mat ℚ)) : ℝ :=
  (mseLoop embNames (lossPred conf predIn) payload 0 (allNumericSize : ℤ)).1

/-- The `delta_mse` local of `BaseMixin.loss` (`0` when deltas are disabled). -/
noncomputable def lossDeltaVal (conf : ModelConf) (predIn : T3 ℝ) (timeSteps : Mat ℚ) : ℝ :=
  if conf.use_deltas then deltaMseVal timeSteps (lossPredDelta conf predIn) else 0

/-- The `total_ce_loss` local of `BaseMixin.loss`
(`torch.sum(torch.cat([...]))` over the per-feature cross-entropy values). -/
noncomputable def lossTotalCe (embDist : List (String × T3 ℝ))
    (payload : List (String × Mat ℚ)) : ℝ :=
  ((EmbeddingPredictor.loss embDist payload).map Prod.snd).sum

namespace BaseMixin

/-- `BaseMixin.loss` (gen_models.py lines 125-187).  Arguments: the configuration, the
configured count of numeric features (`self.all_numeric_size`), the embedding feature
names (`self.processor.emb_names`), and the fields of the `output` dict consumed by the
method (`output["x"]`, `output["pred"]`, `output["input_batch"].payload`,
`output["time_steps"]`, `output["emb_dist"]`).  Returns the `losses_dict` association
list in Python dict insertion order. -/
noncomputable def loss (conf : ModelConf) (allNumericSize : ℕ) (embNames : List String)
    (x : T3 ℝ) (predIn : T3 ℝ) (payload : List (String × Mat ℚ)) (timeSteps : Mat ℚ)
    (embDist : List (String × T3 ℝ)) : List (String × ℝ) :=
  let gtEmbedding0 := x.map (List.drop 1)
  let gtEmbedding := if conf.use_deltas then stripLast gtEmbedding0 else gtEmbedding0
  let totalMseLoss := lossTotalMse conf allNumericSize embNames predIn payload
  let deltaMse : ℝ := lossDeltaVal conf predIn timeSteps
  let ceLosses := EmbeddingPredictor.loss embDist payload
  let totalCeLoss := lossTotalCe embDist payload
  let lossesDict := [("total_mse_loss", totalMseLoss), ("total_CE_loss", totalCeLoss),
    ("delta_loss", conf.delta_weight * deltaMse)] ++ ceLosses
  let totalLoss := conf.mse_weight * totalMseLoss + conf.CE_weight * totalCeLoss +
    conf.delta_weight * deltaMse
  lossesDict ++ [("total_loss", totalLoss)]

end BaseMixin

/-- The learnable parameters of one `GRUCell` (gen_models.py lines 291-302). -/
structure GRUCellParams where
  hidden_size : ℕ
  wx : Mat ℝ
  bx : List ℝ
  wh : Mat ℝ
  bh : List ℝ
  wm : Mat ℝ
  bm : List ℝ

instance : Inhabited GRUCellParams := ⟨⟨0, [], [], [], [], [], []⟩⟩

/-- `tensor.chunk(3, dim)`: three chunks of size `⌈len/3⌉` (the last takes the rest). -/
def chunk3 {α : Type} (l : List α) : List α × List α × List α :=
  (l.take ((l.length + 2) / 3), (l.drop ((l.length + 2) / 3)).take ((l.length + 2) / 3),
    l.drop (2 * ((l.length + 2) / 3)))

namespace GRUCell

/-- `GRUCell.forward` (gen_models.py lines 309-333), per sequence.  The previous hidden
state is first replaced by the GELU of the affine mix of `[global_hidden, hx]`; the two
gate pre-activation vectors are chunked into thirds; the output interpolates between the
context-mixed hidden state and the candidate. -/
noncomputable def forward (p : GRUCellParams) (input globalHidden : List ℝ)
    (hx0 : Option (List ℝ)) : List ℝ :=
  let hx1 := hx0.getD (List.replicate p.hidden_size 0)
  let hx := (linear p.wm p.bm (globalHidden ++ hx1)).map gelu
  let xt := linear p.wx p.bx input
  let ht := linear p.wh p.bh hx
  let xc := chunk3 xt
  let hc := chunk3 ht
  let resetGate := List.zipWith (fun a b => sigmoid (a + b)) xc.1 hc.1
  let updateGate := List.zipWith (fun a b => sigmoid (a + b)) xc.2.1 hc.2.1
  let newGate := List.zipWith (fun a b => Real.tanh (a + b)) xc.2.2
    (List.zipWith (fun r h => r * h) resetGate hc.2.2)
  List.zipWith (fun uh n => uh.1 * uh.2 + (1 - uh.1) * n) (updateGate.zip hx) newGate

end GRUCell

/-- The inner `for layer in range(self.num_layers):` loop of `DecoderGRU.forward`
(gen_models.py lines 386-397) at one timestep: each layer's hidden state is replaced in
turn, the carried cell input being the timestep input for layer 0 and the previous
layer's fresh output for deeper layers.  Returns the last computed hidden state (the
value of `hidden_l` after the loop) and the updated per-layer hidden list. -/
noncomputable def layerLoop (g : List ℝ) :
    List GRUCellParams → List ℝ → List (List ℝ) → List ℝ × List (List ℝ)
  | [], carry, _ => (carry, [])
  | c :: cs, carry, hs =>
    let h1 := GRUCell.forward c carry g (some (hs.headD []))
    let res := layerLoop g cs h1 hs.tail
    (res.1, h1 :: res.2)

/-- The outer `for t in range(input.size(1)):` loop of `DecoderGRU.forward`
(gen_models.py lines 385-399): threads the per-layer hidden states through the
timesteps and collects `outs`. -/
noncomputable def timeLoop (cells : List GRUCellParams) (g : List ℝ) :
    List (List ℝ) → List (List ℝ) → List (List ℝ) × List (List ℝ)
  | [], hidden => ([], hidden)
  | xt :: rest, hidden =>
    let st := layerLoop g cells xt hidden
    let res := timeLoop cells g rest st.2
    (st.1 :: res.1, res.2)

namespace DecoderGRU

/-- `DecoderGRU.forward` (gen_models.py lines 364-401), per sequence: zero-initialized
per-layer hidden states when `hx` is absent, then the time/layer double loop; the
result is the ordered list of collected outputs. -/
noncomputable def forward (cells : List GRUCellParams) (hiddenSize : ℕ)
    (input : Mat ℝ) (g : List ℝ) (hx : Option (Mat ℝ)) : Mat ℝ :=
  let h0 := hx.getD (List.replicate cells.length (List.replicate hiddenSize 0))
  (timeLoop cells g input h0).1

end DecoderGRU

/-! Specification-side definitions, written from the spec's words; the refinement
theorems compare them with the source-derived definitions above. -/

/-- Spec form of one sequence's numeric-feature average (spec §4.3): squared errors at
the positions whose shifted ground truth is nonzero, divided by the count of those
positions. -/
noncomputable def specRowAvg (g : List ℚ) (p : List ℝ) : ℝ :=
  (((List.range g.length).map fun i =>
      if g.getD i 0 ≠ 0 then ((g.getD i 0 : ℝ) - p.getD i 0) ^ 2 else 0).sum) /
    ((g.filter fun v => decide (v ≠ 0)).length : ℝ)

/-- Spec form of one numeric feature's loss (spec §4.3): per-sequence masked averages,
then the mean across sequences. -/
noncomputable def specNumericLoss (gt : Mat ℚ) (ch : Mat ℝ) : ℝ :=
  (((List.range gt.length).map fun b => specRowAvg (gt.getD b []) (ch.getD b [])).sum) /
    (gt.length : ℝ)

/-- Spec form of the delta loss (spec §4.3): one fused quotient — the sum over the whole
batch of the squared errors at valid positions (a delta at index `i` is valid iff the
raw time-step at `i+1` is not `-1`) divided by the total count of valid positions. -/
noncomputable def specFusedDelta (ts : Mat ℚ) (pd : Mat ℝ) : ℝ :=
  (((List.range ts.length).map fun b =>
      (((List.range ((ts.getD b []).length - 1)).map fun i =>
          if (ts.getD b []).getD (i + 1) 0 ≠ -1 then
            ((((ts.getD b []).getD (i + 1) 0 - (ts.getD b []).getD i 0 : ℚ) : ℝ) -
              (pd.getD b []).getD i 0) ^ 2
          else 0).sum)).sum) /
    ((((List.range ts.length).map fun b =>
        ((List.range ((ts.getD b []).length - 1)).filter fun i =>
          decide ((ts.getD b []).getD (i + 1) 0 ≠ -1)).length).sum : ℕ) : ℝ)

/-- The per-sequence-average-then-mean alternative the delta loss does NOT use (the
averaging style of the numeric features, transplanted to the delta data). -/
noncomputable def perSeqDeltaRow (r : List ℚ) (p : List ℝ) : ℝ :=
  (applyMask (mseRow (diffRow r) p) ((maskDeltaRow r).drop 1)).sum /
    (((maskDeltaRow r).drop 1).count true : ℝ)

noncomputable def perSeqDeltaAvg (ts : Mat ℚ) (pd : Mat ℝ) : ℝ :=
  (List.zipWith perSeqDeltaRow ts pd).sum / ((List.zipWith perSeqDeltaRow ts pd).length : ℝ)

/-- Spec form of the layer recursion at one timestep (spec §4.2): layer 0's cell input
is the timestep input, layer `l+1`'s cell input is layer `l`'s fresh output, every
layer's previous-hidden argument is its own entry of the carried hidden list. -/
noncomputable def specNewHidden (cells : List GRUCellParams) (g xt : List ℝ)
    (prev : List (List ℝ)) : ℕ → List ℝ
  | 0 => GRUCell.forward (cells.getD 0 default) xt g (some (prev.getD 0 []))
  | l + 1 => GRUCell.forward (cells.getD (l + 1) default)
      (specNewHidden cells g xt prev l) g (some (prev.getD (l + 1) []))

/-- Spec form of the per-layer hidden states after `t` timesteps (spec §4.2). -/
noncomputable def specHiddens (cells : List GRUCellParams) (g : List ℝ) (input : Mat ℝ)
    (h0 : List (List ℝ)) : ℕ → List (List ℝ)
  | 0 => h0
  | t + 1 => (List.range cells.length).map
      (specNewHidden cells g (input.getD t []) (specHiddens cells g input h0 t))

/-- Spec form of the decoder output (spec §4.2): the top layer's hidden state after each
timestep, in order. -/
noncomputable def specDecoderOut (cells : List GRUCellParams) (g : List ℝ) (input : Mat ℝ)
    (h0 : List (List ℝ)) : Mat ℝ :=
  (List.range input.length).map fun t => (specHiddens cells g input h0 (t + 1)).getLastD []


/-! ### List toolkit -/

theorem lookup_cons_eq {β : Type} (k : String) (v : β) (l : List (String × β)) :
    List.lookup k ((k, v) :: l) = some v := by
  simp [List.lookup]

theorem lookup_cons_ne {β : Type} (k a : String) (v : β) (l : List (String × β))
    (h : k ≠ a) : List.lookup k ((a, v) :: l) = List.lookup k l := by
  have hb : (k == a) = false := beq_false_of_ne h
  simp [List.lookup, hb]

theorem lookup_append_some {β : Type} (k : String) (v : β) (l m : List (String × β))
    (h : List.lookup k l = some v) : List.lookup k (l ++ m) = some v := by
  induction l with
  | nil => simp [List.lookup] at h
  | cons p rest ih =>
    rcases p with ⟨a, b⟩
    by_cases hk : k = a
    · subst hk
      rw [lookup_cons_eq] at h
      simpa [lookup_cons_eq] using h
    · rw [lookup_cons_ne _ _ _ _ hk] at h
      rw [List.cons_append, lookup_cons_ne _ _ _ _ hk]
      exact ih h

theorem lookup_eq_none_of_not_mem {β : Type} (k : String) (l : List (String × β))
    (h : k ∉ l.map Prod.fst) : List.lookup k l = none := by
  induction l with
  | nil => simp [List.lookup]
  | cons p rest ih =>
    rcases p with ⟨a, b⟩
    simp only [List.map_cons, List.mem_cons] at h
    push_neg at h
    rw [lookup_cons_ne _ _ _ _ h.1]
    exact ih h.2

theorem lookup_append_none {β : Type} (k : String) (l m : List (String × β))
    (h : List.lookup k l = none) : List.lookup k (l ++ m) = List.lookup k m := by
  induction l with
  | nil => simp
  | cons p rest ih =>
    rcases p with ⟨a, b⟩
    by_cases hk : k = a
    · subst hk; rw [lookup_cons_eq] at h; exact absurd h (by simp)
    · rw [lookup_cons_ne _ _ _ _ hk] at h
      rw [List.cons_append, lookup_cons_ne _ _ _ _ hk]
      exact ih h

theorem lookup_map_value {β γ : Type} (k : String) (l : List (String × β))
    (f : String → β → γ) :
    List.lookup k (l.map fun p => (p.1, f p.1 p.2)) = (List.lookup k l).map (f k) := by
  induction l with
  | nil => simp [List.lookup]
  | cons p rest ih =>
    rcases p with ⟨a, b⟩
    by_cases hk : k = a
    · subst hk
      simp [lookup_cons_eq]
    · simp only [List.map_cons]
      rw [lookup_cons_ne _ _ _ _ hk, lookup_cons_ne _ _ _ _ hk]
      exact ih

theorem sum_eq_range_getD {M : Type} [AddCommMonoid M] (l : List M) :
    l.sum = ((List.range l.length).map fun i => l.getD i 0).sum := by
  induction l with
  | nil => simp
  | cons a t ih =>
    simp only [List.sum_cons, List.length_cons, List.range_succ_eq_map, List.map_cons,
      List.map_map]
    rw [ih]
    congr 1

theorem zipWith_getD {α β γ : Type} (f : α → β → γ) (a : List α) (b : List β) (i : ℕ)
    (da : α) (db : β) (dc : γ) (ha : i < a.length) (hb : i < b.length) :
    (List.zipWith f a b).getD i dc = f (a.getD i da) (b.getD i db) := by
  induction a generalizing b i with
  | nil => simp at ha
  | cons x xs ih =>
    cases b with
    | nil => simp at hb
    | cons y ys =>
      cases i with
      | zero => simp
      | succ j =>
        simp only [List.zipWith_cons_cons, List.getD_cons_succ]
        exact ih ys j (Nat.lt_of_succ_lt_succ ha) (Nat.lt_of_succ_lt_succ hb)

theorem count_true_map {α : Type} (p : α → Bool) (l : List α) :
    (l.map p).count true = (l.filter p).length := by
  induction l with
  | nil => simp
  | cons a t ih =>
    by_cases h : p a
    · simp [List.count_cons, List.filter_cons, h, ih]
    · simp only [Bool.not_eq_true] at h
      simp [List.count_cons, List.filter_cons, h, ih]

/-! ### Structure of the returned loss dictionary -/

theorem loss_eq_list (conf : ModelConf) (allNumericSize : ℕ) (embNames : List String)
    (x predIn : T3 ℝ) (payload : List (String × Mat ℚ)) (timeSteps : Mat ℚ)
    (embDist : List (String × T3 ℝ)) :
    BaseMixin.loss conf allNumericSize embNames x predIn payload timeSteps embDist =
      ("total_mse_loss", lossTotalMse conf allNumericSize embNames predIn payload) ::
      ("total_CE_loss", lossTotalCe embDist payload) ::
      ("delta_loss", conf.delta_weight * lossDeltaVal conf predIn timeSteps) ::
      (EmbeddingPredictor.loss embDist payload ++
        [("total_loss",
          conf.mse_weight * lossTotalMse conf allNumericSize embNames predIn payload +
          conf.CE_weight * lossTotalCe embDist payload +
          conf.delta_weight * lossDeltaVal conf predIn timeSteps)]) := by
  simp [BaseMixin.loss]

theorem embedding_loss_keys (embDist : List (String × T3 ℝ))
    (payload : List (String × Mat ℚ)) :
    (EmbeddingPredictor.loss embDist payload).map Prod.fst = embDist.map Prod.fst := by
  simp [EmbeddingPredictor.loss]

theorem loss_keys (conf : ModelConf) (allNumericSize : ℕ) (embNames : List String)
    (x predIn : T3 ℝ) (payload : List (String × Mat ℚ)) (timeSteps : Mat ℚ)
    (embDist : List (String × T3 ℝ)) :
    (BaseMixin.loss conf allNumericSize embNames x predIn payload timeSteps embDist).map
        Prod.fst =
      ["total_mse_loss", "total_CE_loss", "delta_loss"] ++ embDist.map Prod.fst ++
        ["total_loss"] := by
  rw [loss_eq_list]
  simp [embedding_loss_keys]

theorem loss_lookup_mse (conf : ModelConf) (allNumericSize : ℕ) (embNames : List String)
    (x predIn : T3 ℝ) (payload : List (String × Mat ℚ)) (timeSteps : Mat ℚ)
    (embDist : List (String × T3 ℝ)) :
    List.lookup "total_mse_loss"
        (BaseMixin.loss conf allNumericSize embNames x predIn payload timeSteps embDist) =
      some (lossTotalMse conf allNumericSize embNames predIn payload) := by
  rw [loss_eq_list]; exact lookup_cons_eq _ _ _

theorem loss_lookup_ce (conf : ModelConf) (allNumericSize : ℕ) (embNames : List String)
    (x predIn : T3 ℝ) (payload : List (String × Mat ℚ)) (timeSteps : Mat ℚ)
    (embDist : List (String × T3 ℝ)) :
    List.lookup "total_CE_loss"
        (BaseMixin.loss conf allNumericSize embNames x predIn payload timeSteps embDist) =
      some (lossTotalCe embDist payload) := by
  rw [loss_eq_list, lookup_cons_ne _ _ _ _ (by decide)]
  exact lookup_cons_eq _ _ _

theorem loss_lookup_delta (conf : ModelConf) (allNumericSize : ℕ) (embNames : List String)
    (x predIn : T3 ℝ) (payload : List (String × Mat ℚ)) (timeSteps : Mat ℚ)
    (embDist : List (String × T3 ℝ)) :
    List.lookup "delta_loss"
        (BaseMixin.loss conf allNumericSize embNames x predIn payload timeSteps embDist) =
      some (conf.delta_weight * lossDeltaVal conf predIn timeSteps) := by
  rw [loss_eq_list, lookup_cons_ne _ _ _ _ (by decide), lookup_cons_ne _ _ _ _ (by decide)]
  exact lookup_cons_eq _ _ _

theorem loss_lookup_feature (conf : ModelConf) (allNumericSize : ℕ) (embNames : List String)
    (x predIn : T3 ℝ) (payload : List (String × Mat ℚ)) (timeSteps : Mat ℚ)
    (embDist : List (String × T3 ℝ)) (name : String) (dist : T3 ℝ)
    (h1 : List.lookup name embDist = some dist)
    (h2 : name ≠ "total_mse_loss") (h3 : name ≠ "total_CE_loss") (h4 : name ≠ "delta_loss") :
    List.lookup name
        (BaseMixin.loss conf allNumericSize embNames x predIn payload timeSteps embDist) =
      some (EmbeddingPredictor.criterion dist (shiftedLabels (payloadGet payload name))) := by
  rw [loss_eq_list, lookup_cons_ne _ _ _ _ h2, lookup_cons_ne _ _ _ _ h3,
    lookup_cons_ne _ _ _ _ h4]
  apply lookup_append_some
  have hm : List.lookup name (EmbeddingPredictor.loss embDist payload) =
      (List.lookup name embDist).map
        (fun d => EmbeddingPredictor.criterion d (shiftedLabels (payloadGet payload name))) := by
    unfold EmbeddingPredictor.loss
    exact lookup_map_value name embDist
      (fun nm d => EmbeddingPredictor.criterion d (shiftedLabels (payloadGet payload nm)))
  rw [hm, h1]
  rfl

theorem loss_lookup_total (conf : ModelConf) (allNumericSize : ℕ) (embNames : List String)
    (x predIn : T3 ℝ) (payload : List (String × Mat ℚ)) (timeSteps : Mat ℚ)
    (embDist : List (String × T3 ℝ))
    (h : "total_loss" ∉ embDist.map Prod.fst) :
    List.lookup "total_loss"
        (BaseMixin.loss conf allNumericSize embNames x predIn payload timeSteps embDist) =
      some (conf.mse_weight * lossTotalMse conf allNumericSize embNames predIn payload +
        conf.CE_weight * lossTotalCe embDist payload +
        conf.delta_weight * lossDeltaVal conf predIn timeSteps) := by
  rw [loss_eq_list, lookup_cons_ne _ _ _ _ (by decide), lookup_cons_ne _ _ _ _ (by decide),
    lookup_cons_ne _ _ _ _ (by decide)]
  rw [lookup_append_none]
  · exact lookup_cons_eq _ _ _
  · apply lookup_eq_none_of_not_mem
    rw [embedding_loss_keys]
    exact h

/-! ### The numeric-feature loop -/

theorem mseLoop_eq_sum (embNames : List String) (pred : T3 ℝ)
    (l : List (String × Mat ℚ)) (acc : ℝ) (n : ℤ) :
    mseLoop embNames pred l acc n =
      (acc + ((List.range (l.filter fun kv => !(decide (kv.1 ∈ embNames))).length).map
          fun i => featureMse
            (((l.filter fun kv => !(decide (kv.1 ∈ embNames))).getD i ("", [])).2.map
              (List.drop 1))
            (sliceChannel pred (-(n - (i : ℤ))))).sum,
        n - (l.filter fun kv => !(decide (kv.1 ∈ embNames))).length) := by
  induction l generalizing acc n with
  | nil => simp [mseLoop]
  | cons kv rest ih =>
    by_cases hk : kv.1 ∈ embNames
    · rw [show mseLoop embNames pred (kv :: rest) acc n = mseLoop embNames pred rest acc n by
        simp [mseLoop, hk]]
      rw [ih]
      simp [List.filter_cons, hk]
    · rw [show mseLoop embNames pred (kv :: rest) acc n =
          mseLoop embNames pred rest
            (acc + featureMse (kv.2.map (List.drop 1)) (sliceChannel pred (-n))) (n - 1) by
        simp [mseLoop, hk]]
      rw [ih]
      have hf : (kv :: rest).filter (fun kv => !(decide (kv.1 ∈ embNames))) =
          kv :: rest.filter (fun kv => !(decide (kv.1 ∈ embNames))) := by
        simp [List.filter_cons, hk]
      rw [hf]
      simp only [Prod.mk.injEq]
      constructor
      · simp only [List.length_cons, List.range_succ_eq_map, List.map_cons, List.map_map,
          List.sum_cons, List.getD_cons_zero, Nat.cast_zero, sub_zero]
        rw [add_assoc]
        congr 2
        apply congrArg
        apply List.map_congr_left
        intro i hi
        simp only [Function.comp_apply, Nat.succ_eq_add_one, List.getD_cons_succ]
        congr 3
        omega
      · simp only [List.length_cons]
        push_cast
        ring

/-! ### Per-feature masked MSE versus its specification form -/

theorem rowMseTerm_eq_spec (g : List ℚ) (p : List ℝ) (h : g.length = p.length) :
    rowMseTerm g p = specRowAvg g p := by
  unfold rowMseTerm specRowAvg
  congr 1
  · have hlen : (applyMask (mseRow g p) (maskRow g)).length = g.length := by
      unfold applyMask mseRow maskRow
      rw [List.length_zipWith, List.length_zipWith, List.length_map]
      omega
    rw [sum_eq_range_getD, hlen]
    apply congrArg
    apply List.map_congr_left
    intro i hi
    rw [List.mem_range] at hi
    have hi2 : i < (mseRow g p).length := by
      unfold mseRow; rw [List.length_zipWith]; omega
    have hi3 : i < (maskRow g).length := by
      unfold maskRow; rw [List.length_map]; omega
    rw [show (applyMask (mseRow g p) (maskRow g)).getD i 0 =
        (mseRow g p).getD i 0 * (if (maskRow g).getD i (decide ((0:ℚ) ≠ 0)) then 1 else 0) from
      zipWith_getD (fun (v : ℝ) (b : Bool) => v * (if b then 1 else 0)) (mseRow g p)
        (maskRow g) i 0 (decide ((0 : ℚ) ≠ 0)) 0 hi2 hi3]
    have hi4 : i < g.length := hi
    have hi5 : i < p.length := by omega
    rw [show (mseRow g p).getD i 0 = ((g.getD i 0 : ℝ) - p.getD i 0) ^ 2 from
      zipWith_getD (fun (gv : ℚ) (pv : ℝ) => ((gv : ℝ) - pv) ^ 2) g p i 0 0 0 hi4 hi5]
    rw [show (maskRow g).getD i (decide ((0:ℚ) ≠ 0)) = decide (g.getD i 0 ≠ 0) from
      List.getD_map g 0 _]
    by_cases hz : g.getD i 0 ≠ 0
    · simp [hz]
    · simp [hz]
  · unfold maskRow
    rw [count_true_map]

theorem featureMse_eq_spec (gt : Mat ℚ) (ch : Mat ℝ) (hlen : ch.length = gt.length)
    (hrows : ∀ pr ∈ gt.zip ch, pr.1.length = pr.2.length) :
    featureMse gt ch = specNumericLoss gt ch := by
  unfold featureMse specNumericLoss
  have hzl : (List.zipWith rowMseTerm gt ch).length = gt.length := by
    rw [List.length_zipWith]
    omega
  rw [hzl]
  congr 1
  rw [sum_eq_range_getD, hzl]
  apply congrArg
  apply List.map_congr_left
  intro b hb
  rw [List.mem_range] at hb
  rw [zipWith_getD rowMseTerm gt ch b [] [] 0 hb (by omega)]
  apply rowMseTerm_eq_spec
  have hgb : b < (gt.zip ch).length := by
    rw [List.length_zip]
    omega
  have hmem : (gt.getD b [], ch.getD b []) ∈ gt.zip ch := by
    have hpair : (gt.zip ch).getD b ([], []) = (gt.getD b [], ch.getD b []) := by
      rw [List.getD_eq_getElem _ _ hgb, List.getElem_zip]
      rw [List.getD_eq_getElem _ _ hb, List.getD_eq_getElem _ _ (by omega : b < ch.length)]
    rw [← hpair, List.getD_eq_getElem _ _ hgb]
    exact List.getElem_mem hgb
  exact hrows _ hmem


/-! ### Delta-loss lemmas -/

theorem getD_tail {α : Type} (l : List α) (i : ℕ) (d : α) :
    (l.drop 1).getD i d = l.getD (i + 1) d := by
  cases l with
  | nil => rfl
  | cons a t => rfl

theorem getD_map_in {α β : Type} (f : α → β) (l : List α) (i : ℕ) (d : β) (da : α)
    (h : i < l.length) : (l.map f).getD i d = f (l.getD i da) := by
  rw [List.getD_eq_getElem _ _ (by simpa using h), List.getElem_map,
    List.getD_eq_getElem _ _ h]

theorem maskDeltaRow_drop (r : List ℚ) :
    (maskDeltaRow r).drop 1 = maskDeltaRow (r.drop 1) := by
  unfold maskDeltaRow
  cases r with
  | nil => rfl
  | cons a t => rfl

theorem filter_map_length {α β : Type} (f : α → β) (p : β → Bool) (l : List α) :
    ((l.map f).filter p).length = (l.filter fun a => p (f a)).length := by
  induction l with
  | nil => rfl
  | cons a t ih =>
    by_cases hpa : p (f a)
    · simp [List.filter_cons, hpa, ih]
    · simp [List.filter_cons, hpa, ih]

theorem filter_length_range {α : Type} (p : α → Bool) (l : List α) (d : α) :
    (l.filter p).length = ((List.range l.length).filter fun i => p (l.getD i d)).length := by
  induction l with
  | nil => rfl
  | cons a t ih =>
    rw [List.length_cons, List.range_succ_eq_map, List.filter_cons, List.filter_cons]
    rw [show ((List.range t.length).map Nat.succ).filter
          (fun i => p ((a :: t).getD i d)) =
        ((List.range t.length).filter fun i => p (t.getD i d)).map Nat.succ by
      rw [List.filter_map]
      apply congrArg
      apply List.filter_congr
      intro i hi
      simp [Function.comp, List.getD_cons_succ]]
    by_cases hpa : p a
    · simp [hpa, List.getD_cons_zero, ih]
    · simp [hpa, List.getD_cons_zero, ih]

theorem diffRow_getD (r : List ℚ) (i : ℕ) (h : i + 1 < r.length) :
    (diffRow r).getD i 0 = r.getD (i + 1) 0 - r.getD i 0 := by
  unfold diffRow
  rw [zipWith_getD (fun (a b : ℚ) => b - a) r (r.drop 1) i 0 0 0 (by omega)
    (by rw [List.length_drop]; omega)]
  rw [getD_tail]

theorem diffRow_length (r : List ℚ) : (diffRow r).length = r.length - 1 := by
  unfold diffRow
  rw [List.length_zipWith, List.length_drop]
  omega

theorem deltaRow_sum (r : List ℚ) (p : List ℝ) (h : p.length = r.length - 1) :
    (applyMask (mseRow (diffRow r) p) ((maskDeltaRow r).drop 1)).sum =
      ((List.range (r.length - 1)).map fun i =>
        if r.getD (i + 1) 0 ≠ -1 then
          (((r.getD (i + 1) 0 - r.getD i 0 : ℚ) : ℝ) - p.getD i 0) ^ 2
        else 0).sum := by
  have hm : (mseRow (diffRow r) p).length = r.length - 1 := by
    unfold mseRow
    rw [List.length_zipWith, diffRow_length]
    omega
  have hk : ((maskDeltaRow r).drop 1).length = r.length - 1 := by
    rw [List.length_drop]
    unfold maskDeltaRow
    rw [List.length_map]
  have hlen : (applyMask (mseRow (diffRow r) p) ((maskDeltaRow r).drop 1)).length =
      r.length - 1 := by
    unfold applyMask
    rw [List.length_zipWith, hm, hk]
    omega
  rw [sum_eq_range_getD, hlen]
  apply congrArg
  apply List.map_congr_left
  intro i hi
  rw [List.mem_range] at hi
  rw [show (applyMask (mseRow (diffRow r) p) ((maskDeltaRow r).drop 1)).getD i 0 =
      (mseRow (diffRow r) p).getD i 0 *
        (if ((maskDeltaRow r).drop 1).getD i false then 1 else 0) from
    zipWith_getD (fun (v : ℝ) (b : Bool) => v * (if b then 1 else 0)) _ _ i 0 false 0
      (by omega) (by omega)]
  rw [show (mseRow (diffRow r) p).getD i 0 =
      (((diffRow r).getD i 0 : ℝ) - p.getD i 0) ^ 2 from
    zipWith_getD (fun (gv : ℚ) (pv : ℝ) => ((gv : ℝ) - pv) ^ 2) _ p i 0 0 0
      (by rw [diffRow_length]; omega) (by omega)]
  rw [maskDeltaRow_drop]
  rw [show (maskDeltaRow (r.drop 1)).getD i false = decide ((r.drop 1).getD i 0 ≠ -1) from
    getD_map_in _ _ i false 0 (by rw [List.length_drop]; omega)]
  rw [getD_tail, diffRow_getD r i (by omega)]
  by_cases hz : r.getD (i + 1) 0 ≠ -1
  · simp [hz]
  · simp [hz]

theorem deltaRow_count (r : List ℚ) :
    ((maskDeltaRow r).drop 1).count true =
      ((List.range (r.length - 1)).filter fun i => decide (r.getD (i + 1) 0 ≠ -1)).length := by
  rw [maskDeltaRow_drop]
  unfold maskDeltaRow
  rw [count_true_map]
  rw [filter_length_range _ (r.drop 1) 0]
  rw [show (r.drop 1).length = r.length - 1 from List.length_drop 1 r]
  apply congrArg
  apply List.filter_congr
  intro i hi
  rw [getD_tail]

theorem deltaMasked_getD (ts : Mat ℚ) (pd : Mat ℝ) (b : ℕ)
    (hb : b < ts.length) (hb2 : b < pd.length) :
    (deltaMasked ts pd).getD b [] =
      applyMask (mseRow (diffRow (ts.getD b [])) (pd.getD b []))
        ((maskDeltaRow (ts.getD b [])).drop 1) := by
  unfold deltaMasked
  rw [zipWith_getD applyMask _ _ b [] [] [] (by rw [List.length_zipWith, List.length_map]; omega)
    (by rw [List.length_map, List.length_map]; omega)]
  rw [zipWith_getD mseRow _ pd b [] [] [] (by rw [List.length_map]; omega) hb2]
  rw [getD_map_in diffRow ts b [] [] hb]
  rw [getD_map_in (List.drop 1) (ts.map maskDeltaRow) b [] [] (by rw [List.length_map]; omega)]
  rw [getD_map_in maskDeltaRow ts b [] [] hb]

theorem deltaMaskCount_eq_spec (ts : Mat ℚ) :
    deltaMaskCount ts =
      ((List.range ts.length).map fun b =>
        ((List.range ((ts.getD b []).length - 1)).filter fun i =>
          decide ((ts.getD b []).getD (i + 1) 0 ≠ -1)).length).sum := by
  unfold deltaMaskCount
  rw [sum_eq_range_getD]
  rw [show (((ts.map maskDeltaRow).map (List.drop 1)).map fun r => r.count true).length =
      ts.length by rw [List.length_map, List.length_map, List.length_map]]
  apply congrArg
  apply List.map_congr_left
  intro b hb
  rw [List.mem_range] at hb
  rw [getD_map_in (fun r => r.count true) _ b 0 []
    (by rw [List.length_map, List.length_map]; omega)]
  rw [getD_map_in (List.drop 1) (ts.map maskDeltaRow) b [] [] (by rw [List.length_map]; omega)]
  rw [getD_map_in maskDeltaRow ts b [] [] hb]
  exact deltaRow_count (ts.getD b [])

theorem deltaMseVal_eq_spec (ts : Mat ℚ) (pd : Mat ℝ)
    (hB : pd.length = ts.length)
    (hrows : ∀ pr ∈ ts.zip pd, pr.2.length = pr.1.length - 1) :
    deltaMseVal ts pd = specFusedDelta ts pd := by
  unfold deltaMseVal specFusedDelta
  rw [deltaMaskCount_eq_spec]
  congr 1
  have hdl : (deltaMasked ts pd).length = ts.length := by
    unfold deltaMasked
    rw [List.length_zipWith, List.length_zipWith, List.length_map, List.length_map,
      List.length_map]
    omega
  rw [sum_eq_range_getD]
  rw [show ((deltaMasked ts pd).map List.sum).length = ts.length by
    rw [List.length_map, hdl]]
  apply congrArg
  apply List.map_congr_left
  intro b hb
  rw [List.mem_range] at hb
  rw [getD_map_in List.sum _ b 0 [] (by rw [hdl]; omega)]
  rw [deltaMasked_getD ts pd b hb (by omega)]
  have hpr : ((ts.getD b []), (pd.getD b [])) ∈ ts.zip pd := by
    have hzb : b < (ts.zip pd).length := by
      rw [List.length_zip]
      omega
    have hpair : (ts.zip pd).getD b ([], []) = (ts.getD b [], pd.getD b []) := by
      rw [List.getD_eq_getElem _ _ hzb, List.getElem_zip]
      rw [List.getD_eq_getElem _ _ hb, List.getD_eq_getElem _ _ (by omega : b < pd.length)]
    rw [← hpair, List.getD_eq_getElem _ _ hzb]
    exact List.getElem_mem hzb
  exact deltaRow_sum (ts.getD b []) (pd.getD b []) (hrows _ hpr)
/-! ### GRU cell lemmas -/

theorem getD_take {α : Type} (l : List α) (n i : ℕ) (d : α) (h : i < n) :
    (l.take n).getD i d = l.getD i d := by
  induction l generalizing n i with
  | nil => simp
  | cons a t ih =>
    cases n with
    | zero => omega
    | succ m =>
      cases i with
      | zero => simp
      | succ j =>
        simp only [List.take_succ_cons, List.getD_cons_succ]
        exact ih m j (by omega)

theorem getD_drop {α : Type} (l : List α) (n i : ℕ) (d : α) :
    (l.drop n).getD i d = l.getD (n + i) d := by
  induction l generalizing n with
  | nil => simp
  | cons a t ih =>
    cases n with
    | zero => rw [List.drop_zero, Nat.zero_add]
    | succ m =>
      simp only [List.drop_succ_cons]
      rw [ih m, show m + 1 + i = m + i + 1 by omega, List.getD_cons_succ]

theorem getD_zip {α β : Type} (a : List α) (b : List β) (i : ℕ) (da : α) (db : β)
    (h1 : i < a.length) (h2 : i < b.length) :
    (a.zip b).getD i (da, db) = (a.getD i da, b.getD i db) := by
  have hz : i < (a.zip b).length := by rw [List.length_zip]; omega
  rw [List.getD_eq_getElem _ _ hz, List.getElem_zip, List.getD_eq_getElem _ _ h1,
    List.getD_eq_getElem _ _ h2]

theorem linear_length (w : Mat ℝ) (b x : List ℝ) :
    (linear w b x).length = min w.length b.length := by
  unfold linear
  rw [List.length_zipWith]
theorem gruCell_getD (p : GRUCellParams) (input g hx : List ℝ) (j : ℕ)
    (hwm : p.wm.length = p.hidden_size) (hbm : p.bm.length = p.hidden_size)
    (hwx : p.wx.length = 3 * p.hidden_size) (hbx : p.bx.length = 3 * p.hidden_size)
    (hwh : p.wh.length = 3 * p.hidden_size) (hbh : p.bh.length = 3 * p.hidden_size)
    (hj : j < p.hidden_size) :
    (GRUCell.forward p input g (some hx)).getD j 0 =
      sigmoid ((linear p.wx p.bx input).getD (p.hidden_size + j) 0 +
          (linear p.wh p.bh ((linear p.wm p.bm (g ++ hx)).map gelu)).getD
            (p.hidden_size + j) 0) *
        ((linear p.wm p.bm (g ++ hx)).map gelu).getD j 0 +
      (1 - sigmoid ((linear p.wx p.bx input).getD (p.hidden_size + j) 0 +
          (linear p.wh p.bh ((linear p.wm p.bm (g ++ hx)).map gelu)).getD
            (p.hidden_size + j) 0)) *
        Real.tanh ((linear p.wx p.bx input).getD (2 * p.hidden_size + j) 0 +
          sigmoid ((linear p.wx p.bx input).getD j 0 +
            (linear p.wh p.bh ((linear p.wm p.bm (g ++ hx)).map gelu)).getD j 0) *
          (linear p.wh p.bh ((linear p.wm p.bm (g ++ hx)).map gelu)).getD
            (2 * p.hidden_size + j) 0) := by
  have hxt : (linear p.wx p.bx input).length = 3 * p.hidden_size := by
    rw [linear_length]; omega
  have hhm : ((linear p.wm p.bm (g ++ hx)).map gelu).length = p.hidden_size := by
    rw [List.length_map, linear_length]; omega
  have hht : (linear p.wh p.bh ((linear p.wm p.bm (g ++ hx)).map gelu)).length =
      3 * p.hidden_size := by
    rw [linear_length]; omega
  simp only [GRUCell.forward, Option.getD_some, chunk3, hxt, hht]
  rw [show (3 * p.hidden_size + 2) / 3 = p.hidden_size by omega]
  set xt := linear p.wx p.bx input with hxt_def
  set hmv := (linear p.wm p.bm (g ++ hx)).map gelu with hmv_def
  set ht := linear p.wh p.bh hmv with hht_def
  set H := p.hidden_size with hH_def
  have hxu : ((xt.drop H).take H).length = H := by
    rw [List.length_take, List.length_drop, hxt]; omega
  have hhu : ((ht.drop H).take H).length = H := by
    rw [List.length_take, List.length_drop, hht]; omega
  have hxr : (xt.take H).length = H := by rw [List.length_take, hxt]; omega
  have hhr : (ht.take H).length = H := by rw [List.length_take, hht]; omega
  have hxn : (xt.drop (2 * H)).length = H := by rw [List.length_drop, hxt]; omega
  have hhn : (ht.drop (2 * H)).length = H := by rw [List.length_drop, hht]; omega
  have hug : (List.zipWith (fun a b => sigmoid (a + b)) ((xt.drop H).take H)
      ((ht.drop H).take H)).length = H := by
    rw [List.length_zipWith, hxu, hhu]; omega
  have hrg : (List.zipWith (fun a b => sigmoid (a + b)) (xt.take H)
      (ht.take H)).length = H := by
    rw [List.length_zipWith, hxr, hhr]; omega
  have hng : (List.zipWith (fun a b => Real.tanh (a + b)) (xt.drop (2 * H))
      (List.zipWith (fun r h => r * h)
        (List.zipWith (fun a b => sigmoid (a + b)) (xt.take H) (ht.take H))
        (ht.drop (2 * H)))).length = H := by
    rw [List.length_zipWith, List.length_zipWith, hxn, hrg, hhn]; omega
  rw [zipWith_getD (fun (uh : ℝ × ℝ) (n : ℝ) => uh.1 * uh.2 + (1 - uh.1) * n) _ _ j
    ((0 : ℝ), (0 : ℝ)) 0 0 (by rw [List.length_zip, hug, hhm]; omega) (by omega)]
  rw [getD_zip _ _ j 0 0 (by omega) (by omega)]
  rw [zipWith_getD (fun (a b : ℝ) => sigmoid (a + b)) ((xt.drop H).take H)
    ((ht.drop H).take H) j 0 0 0 (by omega) (by omega)]
  rw [zipWith_getD (fun (a b : ℝ) => Real.tanh (a + b)) (xt.drop (2 * H)) _ j 0 0 0
    (by omega) (by rw [List.length_zipWith, hrg, hhn]; omega)]
  rw [zipWith_getD (fun (r h : ℝ) => r * h) _ (ht.drop (2 * H)) j 0 0 0
    (by omega) (by omega)]
  rw [zipWith_getD (fun (a b : ℝ) => sigmoid (a + b)) (xt.take H) (ht.take H) j 0 0 0
    (by omega) (by omega)]
  rw [getD_take xt H j 0 hj, getD_take ht H j 0 hj]
  rw [getD_take (xt.drop H) H j 0 hj, getD_take (ht.drop H) H j 0 hj]
  rw [getD_drop xt H j 0, getD_drop ht H j 0, getD_drop xt (2 * H) j 0,
    getD_drop ht (2 * H) j 0]

/-! ### Decoder lemmas -/

theorem headD_eq_getD {α : Type} (l : List α) (d : α) : l.headD d = l.getD 0 d := by
  cases l <;> rfl

theorem tail_getD {α : Type} (l : List α) (i : ℕ) (d : α) :
    l.tail.getD i d = l.getD (i + 1) d := by
  cases l <;> rfl

theorem specNewHidden_cons (c : GRUCellParams) (cs : List GRUCellParams) (g xt : List ℝ)
    (hs : List (List ℝ)) (l : ℕ) :
    specNewHidden (c :: cs) g xt hs (l + 1) =
      specNewHidden cs g (GRUCell.forward c xt g (some (hs.getD 0 []))) hs.tail l := by
  induction l with
  | zero =>
    simp only [specNewHidden, List.getD_cons_succ, List.getD_cons_zero]
    rw [tail_getD]
  | succ m ih =>
    simp only [specNewHidden, List.getD_cons_succ] at ih ⊢
    rw [ih, tail_getD]

theorem layerLoop_eq (g : List ℝ) (cells : List GRUCellParams) (xt : List ℝ)
    (hs : List (List ℝ)) (hne : 0 < cells.length) :
    layerLoop g cells xt hs =
      (specNewHidden cells g xt hs (cells.length - 1),
        (List.range cells.length).map (specNewHidden cells g xt hs)) := by
  induction cells generalizing xt hs with
  | nil => exact absurd hne (by simp)
  | cons c cs ih =>
    by_cases hcs : 0 < cs.length
    · rw [show layerLoop g (c :: cs) xt hs =
          ((layerLoop g cs (GRUCell.forward c xt g (some (hs.headD []))) hs.tail).1,
            GRUCell.forward c xt g (some (hs.headD [])) ::
              (layerLoop g cs (GRUCell.forward c xt g (some (hs.headD []))) hs.tail).2) from
        rfl]
      rw [ih _ _ hcs]
      simp only [headD_eq_getD, Prod.mk.injEq]
      constructor
      · rw [show (c :: cs).length - 1 = (cs.length - 1) + 1 by
          rw [List.length_cons]; omega]
        rw [specNewHidden_cons]
      · rw [List.length_cons, List.range_succ_eq_map, List.map_cons, List.map_map]
        congr 1
        apply List.map_congr_left
        intro l hl
        simp only [Function.comp_apply, Nat.succ_eq_add_one]
        rw [specNewHidden_cons]
    · have hnil : cs = [] := by
        cases cs with
        | nil => rfl
        | cons a b => simp at hcs
      subst hnil
      rw [show layerLoop g [c] xt hs =
          (GRUCell.forward c xt g (some (hs.headD [])),
            [GRUCell.forward c xt g (some (hs.headD []))]) from rfl]
      have hr1 : List.range 1 = [0] := rfl
      simp only [headD_eq_getD, List.length_cons, List.length_nil, Nat.zero_add,
        Nat.add_sub_cancel, hr1, List.map_cons, List.map_nil, Prod.mk.injEq]
      constructor
      · rfl
      · rfl

theorem specHiddens_cons (cells : List GRUCellParams) (g : List ℝ) (xt : List ℝ)
    (rest : Mat ℝ) (h0 : List (List ℝ)) (t : ℕ) :
    specHiddens cells g (xt :: rest) h0 (t + 1) =
      specHiddens cells g rest
        ((List.range cells.length).map (specNewHidden cells g xt h0)) t := by
  induction t with
  | zero =>
    simp only [specHiddens, List.getD_cons_zero]
  | succ m ih =>
    rw [show specHiddens cells g (xt :: rest) h0 (m + 1 + 1) =
        (List.range cells.length).map
          (specNewHidden cells g ((xt :: rest).getD (m + 1) [])
            (specHiddens cells g (xt :: rest) h0 (m + 1))) from rfl]
    rw [show specHiddens cells g rest
          ((List.range cells.length).map (specNewHidden cells g xt h0)) (m + 1) =
        (List.range cells.length).map
          (specNewHidden cells g (rest.getD m [])
            (specHiddens cells g rest
              ((List.range cells.length).map (specNewHidden cells g xt h0)) m)) from rfl]
    rw [ih, List.getD_cons_succ]

theorem timeLoop_out_len (cells : List GRUCellParams) (g : List ℝ) (input : Mat ℝ)
    (hidden : List (List ℝ)) :
    (timeLoop cells g input hidden).1.length = input.length := by
  induction input generalizing hidden with
  | nil => rfl
  | cons xt rest ih =>
    rw [show timeLoop cells g (xt :: rest) hidden =
        ((layerLoop g cells xt hidden).1 ::
            (timeLoop cells g rest (layerLoop g cells xt hidden).2).1,
          (timeLoop cells g rest (layerLoop g cells xt hidden).2).2) from rfl]
    simp [ih]

theorem getLastD_range_map {α : Type} (n : ℕ) (f : ℕ → α) (d : α) (h : 0 < n) :
    ((List.range n).map f).getLastD d = f (n - 1) := by
  have hlen : ((List.range n).map f).length = n := by
    rw [List.length_map, List.length_range]
  rw [List.getLastD_eq_getLast?, List.getLast?_eq_getElem?]
  rw [hlen, List.getElem?_eq_getElem (by omega)]
  simp only [Option.getD_some]
  rw [List.getElem_map, List.getElem_range]

theorem timeLoop_eq_spec (cells : List GRUCellParams) (g : List ℝ) (input : Mat ℝ)
    (h0 : List (List ℝ)) (hne : 0 < cells.length) :
    (timeLoop cells g input h0).1 = specDecoderOut cells g input h0 := by
  induction input generalizing h0 with
  | nil => rfl
  | cons xt rest ih =>
    rw [show timeLoop cells g (xt :: rest) h0 =
        ((layerLoop g cells xt h0).1 ::
            (timeLoop cells g rest (layerLoop g cells xt h0).2).1,
          (timeLoop cells g rest (layerLoop g cells xt h0).2).2) from rfl]
    rw [layerLoop_eq g cells xt h0 hne]
    dsimp only
    unfold specDecoderOut
    rw [List.length_cons, List.range_succ_eq_map, List.map_cons, List.map_map]
    congr 1
    case _ =>
      rw [specHiddens_cons]
      rw [show specHiddens cells g rest
            ((List.range cells.length).map (specNewHidden cells g xt h0)) 0 =
          (List.range cells.length).map (specNewHidden cells g xt h0) from rfl]
      rw [getLastD_range_map cells.length _ [] hne]
    case _ =>
      rw [ih ((List.range cells.length).map (specNewHidden cells g xt h0))]
      unfold specDecoderOut
      apply List.map_congr_left
      intro t ht
      simp only [Function.comp_apply, Nat.succ_eq_add_one]
      rw [specHiddens_cons]
/-! ### Remaining helpers -/

theorem mem_zip_index {α β : Type} (a : List α) (b : List β) (pr : α × β) (da : α) (db : β)
    (h : pr ∈ a.zip b) :
    ∃ i, i < a.length ∧ i < b.length ∧ pr.1 = a.getD i da ∧ pr.2 = b.getD i db := by
  obtain ⟨i, hi, he⟩ := List.mem_iff_getElem.mp h
  rw [List.length_zip] at hi
  refine ⟨i, by omega, by omega, ?_, ?_⟩
  · rw [List.getD_eq_getElem _ _ (by omega : i < a.length)]
    rw [← he, List.getElem_zip]
  · rw [List.getD_eq_getElem _ _ (by omega : i < b.length)]
    rw [← he, List.getElem_zip]

theorem gruCell_length (p : GRUCellParams) (input g hx : List ℝ)
    (hwm : p.wm.length = p.hidden_size) (hbm : p.bm.length = p.hidden_size)
    (hwx : p.wx.length = 3 * p.hidden_size) (hbx : p.bx.length = 3 * p.hidden_size)
    (hwh : p.wh.length = 3 * p.hidden_size) (hbh : p.bh.length = 3 * p.hidden_size) :
    (GRUCell.forward p input g (some hx)).length = p.hidden_size := by
  simp only [GRUCell.forward, Option.getD_some, chunk3]
  simp only [List.length_zipWith, List.length_zip, List.length_take, List.length_drop,
    List.length_map, linear_length, hwm, hbm, hwx, hbx, hwh, hbh]
  omega

/-! ### Claim theorems -/

/-- C3: the global-conditioned GRU cell computes exactly the specified formula: with
`h_mix = GELU(Affine_mix(global ++ previous_hidden))` (all-zero previous hidden when the
argument is absent), gate pre-activations chunked into three equal `hidden_size` blocks
of `Affine_in(input)` and `Affine_hidden(h_mix)`, `reset`/`update` the sigmoids of the
first/second block sums, `candidate` the tanh of the third blocks with the reset gate
multiplying the hidden part, and output `update ⊙ h_mix + (1 - update) ⊙ candidate`. -/
theorem c3_gru_cell_formula (p : GRUCellParams) (input g : List ℝ)
    (hwm : p.wm.length = p.hidden_size) (hbm : p.bm.length = p.hidden_size)
    (hwx : p.wx.length = 3 * p.hidden_size) (hbx : p.bx.length = 3 * p.hidden_size)
    (hwh : p.wh.length = 3 * p.hidden_size) (hbh : p.bh.length = 3 * p.hidden_size) :
    GRUCell.forward p input g none =
        GRUCell.forward p input g (some (List.replicate p.hidden_size 0)) ∧
    ∀ hx : List ℝ, (GRUCell.forward p input g (some hx)).length = p.hidden_size ∧
      ∀ j, j < p.hidden_size →
        (GRUCell.forward p input g (some hx)).getD j 0 =
          sigmoid ((linear p.wx p.bx input).getD (p.hidden_size + j) 0 +
              (linear p.wh p.bh ((linear p.wm p.bm (g ++ hx)).map gelu)).getD
                (p.hidden_size + j) 0) *
            ((linear p.wm p.bm (g ++ hx)).map gelu).getD j 0 +
          (1 - sigmoid ((linear p.wx p.bx input).getD (p.hidden_size + j) 0 +
              (linear p.wh p.bh ((linear p.wm p.bm (g ++ hx)).map gelu)).getD
                (p.hidden_size + j) 0)) *
            Real.tanh ((linear p.wx p.bx input).getD (2 * p.hidden_size + j) 0 +
              sigmoid ((linear p.wx p.bx input).getD j 0 +
                (linear p.wh p.bh ((linear p.wm p.bm (g ++ hx)).map gelu)).getD j 0) *
              (linear p.wh p.bh ((linear p.wm p.bm (g ++ hx)).map gelu)).getD
                (2 * p.hidden_size + j) 0) := by
  refine ⟨rfl, fun hx => ⟨gruCell_length p input g hx hwm hbm hwx hbx hwh hbh, ?_⟩⟩
  intro j hj
  exact gruCell_getD p input g hx j hwm hbm hwx hbx hwh hbh hj

/-- Witness for C3 at a concrete one-unit cell. -/
theorem c3_gru_cell_formula_witness :
    (([[1], [2], [3]] : Mat ℝ).length = 3 * 1 ∧ ([0, 0, 0] : List ℝ).length = 3 * 1 ∧
      ([[1, 1]] : Mat ℝ).length = 1 ∧ ([0] : List ℝ).length = 1) ∧
    (GRUCell.forward ⟨1, [[1], [2], [3]], [0, 0, 0], [[4], [5], [6]], [0, 0, 0],
          [[1, 1]], [0]⟩ [1] [2] none =
        GRUCell.forward ⟨1, [[1], [2], [3]], [0, 0, 0], [[4], [5], [6]], [0, 0, 0],
          [[1, 1]], [0]⟩ [1] [2] (some (List.replicate 1 0)) ∧
      ∀ hx : List ℝ,
        (GRUCell.forward ⟨1, [[1], [2], [3]], [0, 0, 0], [[4], [5], [6]], [0, 0, 0],
            [[1, 1]], [0]⟩ [1] [2] (some hx)).length = 1 ∧
        ∀ j, j < 1 →
          (GRUCell.forward ⟨1, [[1], [2], [3]], [0, 0, 0], [[4], [5], [6]], [0, 0, 0],
              [[1, 1]], [0]⟩ [1] [2] (some hx)).getD j 0 =
            sigmoid ((linear [[1], [2], [3]] [0, 0, 0] [1]).getD (1 + j) 0 +
                (linear [[4], [5], [6]] [0, 0, 0]
                  ((linear [[1, 1]] [0] ([2] ++ hx)).map gelu)).getD (1 + j) 0) *
              ((linear [[1, 1]] [0] ([2] ++ hx)).map gelu).getD j 0 +
            (1 - sigmoid ((linear [[1], [2], [3]] [0, 0, 0] [1]).getD (1 + j) 0 +
                (linear [[4], [5], [6]] [0, 0, 0]
                  ((linear [[1, 1]] [0] ([2] ++ hx)).map gelu)).getD (1 + j) 0)) *
              Real.tanh ((linear [[1], [2], [3]] [0, 0, 0] [1]).getD (2 * 1 + j) 0 +
                sigmoid ((linear [[1], [2], [3]] [0, 0, 0] [1]).getD j 0 +
                  (linear [[4], [5], [6]] [0, 0, 0]
                    ((linear [[1, 1]] [0] ([2] ++ hx)).map gelu)).getD j 0) *
                (linear [[4], [5], [6]] [0, 0, 0]
                  ((linear [[1, 1]] [0] ([2] ++ hx)).map gelu)).getD (2 * 1 + j) 0)) :=
  ⟨⟨by decide, by decide, by decide, by decide⟩,
    c3_gru_cell_formula ⟨1, [[1], [2], [3]], [0, 0, 0], [[4], [5], [6]], [0, 0, 0],
      [[1, 1]], [0]⟩ [1] [2] (by decide) (by decide) (by decide) (by decide) (by decide)
      (by decide)⟩

/-- C7: the multi-layer decoder processes timesteps strictly sequentially — layer 0
receives `input_sequence[t]`, layer `l+1` receives layer `l`'s fresh output at the same
`t`, each layer's previous-hidden argument is its own state from `t-1`
(`specNewHidden` / `specHiddens`), the absent initial state is the per-layer all-zero
state, and the output is the ordered list of the top layer's hidden state at each
timestep, of length equal to the input length (`specDecoderOut`). -/
theorem c7_decoder_unroll (cells : List GRUCellParams) (hiddenSize : ℕ) (input : Mat ℝ)
    (g : List ℝ) (hne : 0 < cells.length) :
    DecoderGRU.forward cells hiddenSize input g none =
        DecoderGRU.forward cells hiddenSize input g
          (some (List.replicate cells.length (List.replicate hiddenSize 0))) ∧
    (∀ hx : Option (Mat ℝ),
      (DecoderGRU.forward cells hiddenSize input g hx).length = input.length) ∧
    ∀ h0 : List (List ℝ),
      DecoderGRU.forward cells hiddenSize input g (some h0) =
        specDecoderOut cells g input h0 := by
  refine ⟨rfl, fun hx => ?_, fun h0 => ?_⟩
  · unfold DecoderGRU.forward
    exact timeLoop_out_len cells g input _
  · unfold DecoderGRU.forward
    exact timeLoop_eq_spec cells g input h0 hne

/-- Witness for C7 at a concrete two-layer decoder over a two-step input. -/
theorem c7_decoder_unroll_witness :
    0 < ([⟨1, [[1], [2], [3]], [0, 0, 0], [[4], [5], [6]], [0, 0, 0], [[1, 1]], [0]⟩,
        ⟨1, [[7], [8], [9]], [1, 1, 1], [[4], [5], [6]], [0, 0, 0], [[1, 1]], [0]⟩] :
        List GRUCellParams).length ∧
    ∀ h0 : List (List ℝ),
      DecoderGRU.forward
          [⟨1, [[1], [2], [3]], [0, 0, 0], [[4], [5], [6]], [0, 0, 0], [[1, 1]], [0]⟩,
            ⟨1, [[7], [8], [9]], [1, 1, 1], [[4], [5], [6]], [0, 0, 0], [[1, 1]], [0]⟩]
          1 [[1], [2]] [3] (some h0) =
        specDecoderOut
          [⟨1, [[1], [2], [3]], [0, 0, 0], [[4], [5], [6]], [0, 0, 0], [[1, 1]], [0]⟩,
            ⟨1, [[7], [8], [9]], [1, 1, 1], [[4], [5], [6]], [0, 0, 0], [[1, 1]], [0]⟩]
          [3] [[1], [2]] h0 :=
  ⟨by decide,
    (c7_decoder_unroll
      [⟨1, [[1], [2], [3]], [0, 0, 0], [[4], [5], [6]], [0, 0, 0], [[1, 1]], [0]⟩,
        ⟨1, [[7], [8], [9]], [1, 1, 1], [[4], [5], [6]], [0, 0, 0], [[1, 1]], [0]⟩]
      1 [[1], [2]] [3] (by decide)).2.2⟩
/-- C8: in the numeric-feature loop, every payload key that is not an embedding feature
name is processed, and the `i`-th processed feature reads channel `-(N - i)` of the
prediction, where `N` is the configured numeric count: the index expression
`-num_val_feature` is re-evaluated each iteration with the countdown decreased once per
processed feature, so successive features select successive trailing channels anchored
to the configured count, not to the number of keys iterated.  The final countdown equals
`N` minus the number of processed features. -/
theorem c8_numeric_loop_countdown (embNames : List String) (pred : T3 ℝ)
    (payload : List (String × Mat ℚ)) (allNumericSize : ℕ) :
    mseLoop embNames pred payload 0 (allNumericSize : ℤ) =
      (((List.range (payload.filter fun kv => !(decide (kv.1 ∈ embNames))).length).map
          fun i => featureMse
            (((payload.filter fun kv => !(decide (kv.1 ∈ embNames))).getD i ("", [])).2.map
              (List.drop 1))
            (sliceChannel pred (-((allNumericSize : ℤ) - (i : ℤ))))).sum,
        (allNumericSize : ℤ) -
          (payload.filter fun kv => !(decide (kv.1 ∈ embNames))).length) ∧
    ∀ conf : ModelConf, ∀ predIn : T3 ℝ,
      lossTotalMse conf allNumericSize embNames predIn payload =
        ((List.range (payload.filter fun kv => !(decide (kv.1 ∈ embNames))).length).map
          fun i => featureMse
            (((payload.filter fun kv => !(decide (kv.1 ∈ embNames))).getD i ("", [])).2.map
              (List.drop 1))
            (sliceChannel (lossPred conf predIn)
              (-((allNumericSize : ℤ) - (i : ℤ))))).sum := by
  constructor
  · rw [mseLoop_eq_sum]
    rw [zero_add]
  · intro conf predIn
    unfold lossTotalMse
    rw [mseLoop_eq_sum]
    rw [zero_add]

/-- C9: no masked-average branch guards against a zero count of valid positions.  When a
sequence's numeric mask has zero valid entries the per-sequence average literally
divides the masked sum by the count `0` (real division totalises the float NaN to `0`
in the embedding), likewise for the batch-wide delta average, and the loss call still
returns the complete breakdown dictionary rather than raising a structured error. -/
theorem c9_division_by_zero_unguarded :
    (∀ (g : List ℚ) (p : List ℝ), (maskRow g).count true = 0 →
      rowMseTerm g p = (applyMask (mseRow g p) (maskRow g)).sum / (((0 : ℕ) : ℝ))) ∧
    (∀ (ts : Mat ℚ) (pd : Mat ℝ), deltaMaskCount ts = 0 →
      deltaMseVal ts pd = ((deltaMasked ts pd).map List.sum).sum / (((0 : ℕ) : ℝ))) ∧
    ∀ (conf : ModelConf) (allNumericSize : ℕ) (embNames : List String) (x predIn : T3 ℝ)
      (payload : List (String × Mat ℚ)) (timeSteps : Mat ℚ)
      (embDist : List (String × T3 ℝ)),
      (BaseMixin.loss conf allNumericSize embNames x predIn payload timeSteps
          embDist).map Prod.fst =
        ["total_mse_loss", "total_CE_loss", "delta_loss"] ++ embDist.map Prod.fst ++
          ["total_loss"] := by
  refine ⟨fun g p h => ?_, fun ts pd h => ?_, fun conf a e x pi pl t d => loss_keys _ _ _ _ _ _ _ _⟩
  · unfold rowMseTerm
    rw [h]
  · unfold deltaMseVal
    rw [h]

/-- Witness for C9: an all-padded numeric row and an all-sentinel time-step batch. -/
theorem c9_division_by_zero_unguarded_witness :
    ((maskRow [0, 0]).count true = 0 ∧
      rowMseTerm [0, 0] [1, 2] =
        (applyMask (mseRow [0, 0] [1, 2]) (maskRow [0, 0])).sum / (((0 : ℕ) : ℝ))) ∧
    (deltaMaskCount [[-1, -1]] = 0 ∧
      deltaMseVal [[-1, -1]] [[5]] =
        ((deltaMasked [[-1, -1]] [[5]]).map List.sum).sum / (((0 : ℕ) : ℝ))) :=
  ⟨⟨by decide, c9_division_by_zero_unguarded.1 [0, 0] [1, 2] (by decide)⟩,
    ⟨by decide, c9_division_by_zero_unguarded.2.1 [[-1, -1]] [[5]] (by decide)⟩⟩

/-- C10: the delta mask consults only the raw time-step at position `i+1`: the sliced
mask equals the elementwise `≠ -1` test of the time-step rows with position 0 dropped,
the masked squared delta at index `i` is kept exactly when the time-step at `i+1`
differs from `-1`, and the valid-position count counts exactly those indices. -/
theorem c10_delta_mask_semantics :
    (∀ ts : Mat ℚ, (ts.map maskDeltaRow).map (List.drop 1) =
      ts.map fun r => (r.drop 1).map fun v => decide (v ≠ -1)) ∧
    (∀ (ts : Mat ℚ) (pd : Mat ℝ) (b i : ℕ), b < ts.length → b < pd.length →
      i + 1 < (ts.getD b []).length → i < (pd.getD b []).length →
      ((deltaMasked ts pd).getD b []).getD i 0 =
        if (ts.getD b []).getD (i + 1) 0 ≠ -1 then
          ((((ts.getD b []).getD (i + 1) 0 - (ts.getD b []).getD i 0 : ℚ) : ℝ) -
            (pd.getD b []).getD i 0) ^ 2
        else 0) ∧
    ∀ ts : Mat ℚ, deltaMaskCount ts =
      ((List.range ts.length).map fun b =>
        ((List.range ((ts.getD b []).length - 1)).filter fun i =>
          decide ((ts.getD b []).getD (i + 1) 0 ≠ -1)).length).sum := by
  refine ⟨fun ts => ?_, fun ts pd b i hb hb2 hi hip => ?_, fun ts => deltaMaskCount_eq_spec ts⟩
  · rw [List.map_map]
    apply List.map_congr_left
    intro r hr
    simp only [Function.comp_apply]
    rw [maskDeltaRow_drop]
    rfl
  · rw [deltaMasked_getD ts pd b hb hb2]
    have hdl : i < (diffRow (ts.getD b [])).length := by
      rw [diffRow_length]; omega
    rw [show (applyMask (mseRow (diffRow (ts.getD b [])) (pd.getD b []))
          ((maskDeltaRow (ts.getD b [])).drop 1)).getD i 0 =
        (mseRow (diffRow (ts.getD b [])) (pd.getD b [])).getD i 0 *
          (if ((maskDeltaRow (ts.getD b [])).drop 1).getD i false then 1 else 0) from
      zipWith_getD (fun (v : ℝ) (b : Bool) => v * (if b then 1 else 0)) _ _ i 0 false 0
        (by unfold mseRow; rw [List.length_zipWith]; omega)
        (by rw [List.length_drop]; unfold maskDeltaRow; rw [List.length_map]; omega)]
    rw [show (mseRow (diffRow (ts.getD b [])) (pd.getD b [])).getD i 0 =
        (((diffRow (ts.getD b [])).getD i 0 : ℝ) - (pd.getD b []).getD i 0) ^ 2 from
      zipWith_getD (fun (gv : ℚ) (pv : ℝ) => ((gv : ℝ) - pv) ^ 2) _ _ i 0 0 0 hdl hip]
    rw [maskDeltaRow_drop]
    rw [show (maskDeltaRow ((ts.getD b []).drop 1)).getD i false =
        decide (((ts.getD b []).drop 1).getD i 0 ≠ -1) from
      getD_map_in _ _ i false 0 (by rw [List.length_drop]; omega)]
    rw [getD_tail, diffRow_getD (ts.getD b []) i hi]
    by_cases hz : (ts.getD b []).getD (i + 1) 0 ≠ -1
    · simp [hz]
    · simp [hz]

/-- Witness for C10 part (b) at a concrete batch. -/
theorem c10_delta_mask_semantics_witness :
    (0 < ([[0, 1, 2]] : Mat ℚ).length ∧ 0 < ([[4, 5]] : Mat ℝ).length ∧
      0 + 1 < (([[0, 1, 2]] : Mat ℚ).getD 0 []).length ∧
      0 < (([[4, 5]] : Mat ℝ).getD 0 []).length) ∧
    ((deltaMasked [[0, 1, 2]] [[4, 5]]).getD 0 []).getD 0 0 =
      if (([[0, 1, 2]] : Mat ℚ).getD 0 []).getD (0 + 1) 0 ≠ -1 then
        ((((([[0, 1, 2]] : Mat ℚ).getD 0 []).getD (0 + 1) 0 -
            (([[0, 1, 2]] : Mat ℚ).getD 0 []).getD 0 0 : ℚ) : ℝ) -
          (([[4, 5]] : Mat ℝ).getD 0 []).getD 0 0) ^ 2
      else 0 :=
  ⟨⟨by decide, by decide, by decide, by decide⟩,
    c10_delta_mask_semantics.2.1 [[0, 1, 2]] [[4, 5]] 0 0 (by decide) (by decide)
      (by decide) (by decide)⟩
/-- C4: the `total_mse_loss` entry of the full model loss equals, summed over the
processed numeric features: ground truth shifted by one timestep, elementwise squared
error against the corresponding channel of the (delta-stripped) prediction, positions
whose shifted ground truth is `0` masked out, the surviving squared errors averaged per
sequence over that sequence's count of non-padded positions, and those per-sequence
averages averaged across sequences (`specNumericLoss`). -/
theorem c4_numeric_feature_loss (conf : ModelConf) (allNumericSize : ℕ)
    (embNames : List String) (x predIn : T3 ℝ) (payload : List (String × Mat ℚ))
    (timeSteps : Mat ℚ) (embDist : List (String × T3 ℝ))
    (hB : ∀ kv ∈ payload, kv.1 ∉ embNames → kv.2.length = (lossPred conf predIn).length)
    (hT : ∀ kv ∈ payload, kv.1 ∉ embNames → ∀ i, i < kv.2.length →
      (kv.2.getD i []).length = ((lossPred conf predIn).getD i []).length + 1) :
    List.lookup "total_mse_loss"
        (BaseMixin.loss conf allNumericSize embNames x predIn payload timeSteps embDist) =
      some (((List.range
          (payload.filter fun kv => !(decide (kv.1 ∈ embNames))).length).map
        fun i => specNumericLoss
          (((payload.filter fun kv => !(decide (kv.1 ∈ embNames))).getD i ("", [])).2.map
            (List.drop 1))
          (sliceChannel (lossPred conf predIn)
            (-((allNumericSize : ℤ) - (i : ℤ))))).sum) := by
  rw [loss_lookup_mse]
  apply congrArg
  unfold lossTotalMse
  rw [mseLoop_eq_sum]
  dsimp only
  rw [zero_add]
  apply congrArg
  apply List.map_congr_left
  intro i hi
  rw [List.mem_range] at hi
  have hmemF : (payload.filter fun kv => !(decide (kv.1 ∈ embNames))).getD i ("", []) ∈
      payload.filter fun kv => !(decide (kv.1 ∈ embNames)) := by
    rw [List.getD_eq_getElem _ _ hi]
    exact List.getElem_mem hi
  have hmemP := (List.mem_filter.mp hmemF).1
  have hkey : ((payload.filter fun kv => !(decide (kv.1 ∈ embNames))).getD i
      ("", [])).1 ∉ embNames := by
    have hpred := (List.mem_filter.mp hmemF).2
    simpa using hpred
  have hlen2 : ((payload.filter fun kv => !(decide (kv.1 ∈ embNames))).getD i
      ("", [])).2.length = (lossPred conf predIn).length := hB _ hmemP hkey
  apply featureMse_eq_spec
  · unfold sliceChannel
    rw [List.length_map, List.length_map, hlen2]
  · intro pr hpr
    obtain ⟨j, hj1, hj2, he1, he2⟩ := mem_zip_index _ _ pr [] [] hpr
    rw [List.length_map, hlen2] at hj1
    have hj1b : j < ((payload.filter fun kv => !(decide (kv.1 ∈ embNames))).getD i
        ("", [])).2.length := by rw [hlen2]; exact hj1
    rw [he1, he2]
    rw [getD_map_in (List.drop 1) _ j [] [] (by rw [hlen2]; exact hj1)]
    unfold sliceChannel
    rw [getD_map_in _ (lossPred conf predIn) j [] []
      (by unfold sliceChannel at hj2; rw [List.length_map] at hj2; exact hj2)]
    rw [List.length_drop, List.length_map]
    have hrow := hT _ hmemP hkey j hj1b
    omega

/-- Witness for C4 at a one-feature, one-sequence batch. -/
theorem c4_numeric_feature_loss_witness :
    (∀ kv ∈ [(("amt" : String), ([[0, 5, 7]] : Mat ℚ))], kv.1 ∉ ([] : List String) →
      kv.2.length = (lossPred ⟨false, 1, 1, 1⟩ [[[2], [3]]]).length) ∧
    (∀ kv ∈ [(("amt" : String), ([[0, 5, 7]] : Mat ℚ))], kv.1 ∉ ([] : List String) →
      ∀ i, i < kv.2.length → (kv.2.getD i []).length =
        ((lossPred ⟨false, 1, 1, 1⟩ [[[2], [3]]]).getD i []).length + 1) ∧
    List.lookup "total_mse_loss"
        (BaseMixin.loss ⟨false, 1, 1, 1⟩ 1 [] [] [[[2], [3]]]
          [("amt", [[0, 5, 7]])] [] []) =
      some (((List.range
          (([("amt", [[0, 5, 7]])].filter fun kv =>
            !(decide (kv.1 ∈ ([] : List String)))).length)).map
        fun i => specNumericLoss
          ((([(("amt" : String), ([[0, 5, 7]] : Mat ℚ))].filter fun kv =>
              !(decide (kv.1 ∈ ([] : List String)))).getD i ("", [])).2.map
            (List.drop 1))
          (sliceChannel (lossPred ⟨false, 1, 1, 1⟩ [[[2], [3]]])
            (-((1 : ℤ) - (i : ℤ))))).sum) :=
  ⟨by decide, by decide,
    c4_numeric_feature_loss ⟨false, 1, 1, 1⟩ 1 [] [] [[[2], [3]]]
      [("amt", [[0, 5, 7]])] [] [] (by decide) (by decide)⟩

/-- C5: the delta loss is one fused average — the batch-wide sum of squared errors
between consecutive raw time-step differences and the trailing delta channel, kept at
an index exactly when the raw time-step one position later differs from the sentinel
`-1`, divided by the total count of such positions (`specFusedDelta`) — it is not the
per-sequence-average-then-mean used for numeric features (`perSeqDeltaAvg` differs on a
concrete batch), and when deltas are enabled the `delta_loss` entry of the full model
loss carries `delta_weight` times this fused average. -/
theorem c5_delta_fused_average :
    (∀ (ts : Mat ℚ) (pd : Mat ℝ), pd.length = ts.length →
      (∀ b, b < ts.length → (pd.getD b []).length = (ts.getD b []).length - 1) →
      deltaMseVal ts pd = specFusedDelta ts pd) ∧
    deltaMseVal [[0, 2, 4], [0, 1, -1]] [[0, 0], [0, 0]] ≠
      perSeqDeltaAvg [[0, 2, 4], [0, 1, -1]] [[0, 0], [0, 0]] ∧
    ∀ (conf : ModelConf) (allNumericSize : ℕ) (embNames : List String) (x predIn : T3 ℝ)
      (payload : List (String × Mat ℚ)) (timeSteps : Mat ℚ)
      (embDist : List (String × T3 ℝ)), conf.use_deltas = true →
      List.lookup "delta_loss"
          (BaseMixin.loss conf allNumericSize embNames x predIn payload timeSteps
            embDist) =
        some (conf.delta_weight * deltaMseVal timeSteps (lastChannel predIn)) := by
  refine ⟨fun ts pd hB hidx => ?_, ?_, fun conf a e x pi pl t d hud => ?_⟩
  · apply deltaMseVal_eq_spec ts pd hB
    intro pr hpr
    obtain ⟨j, hj1, hj2, he1, he2⟩ := mem_zip_index _ _ pr [] [] hpr
    rw [he1, he2]
    exact hidx j hj1
  · have h1 : deltaMseVal [[0, 2, 4], [0, 1, -1]] [[0, 0], [0, 0]] = 3 := by
      norm_num [deltaMseVal, deltaMasked, deltaMaskCount, applyMask, mseRow,
        maskDeltaRow, diffRow, List.count_cons]
    have h2 : perSeqDeltaAvg [[0, 2, 4], [0, 1, -1]] [[0, 0], [0, 0]] = 5 / 2 := by
      norm_num [perSeqDeltaAvg, perSeqDeltaRow, applyMask, mseRow, maskDeltaRow,
        diffRow, List.count_cons]
    rw [h1, h2]
    norm_num
  · rw [loss_lookup_delta]
    apply congrArg
    apply congrArg
    simp [lossDeltaVal, lossPredDelta, hud]

/-- Witness for C5 part (a) at a concrete two-sequence batch. -/
theorem c5_delta_fused_average_witness :
    (([[2], [3]] : Mat ℝ).length = ([[0, 1], [5, -1]] : Mat ℚ).length ∧
      (∀ b, b < ([[0, 1], [5, -1]] : Mat ℚ).length →
        (([[2], [3]] : Mat ℝ).getD b []).length =
          (([[0, 1], [5, -1]] : Mat ℚ).getD b []).length - 1)) ∧
    deltaMseVal [[0, 1], [5, -1]] [[2], [3]] =
      specFusedDelta [[0, 1], [5, -1]] [[2], [3]] :=
  ⟨⟨by decide, by decide⟩,
    c5_delta_fused_average.1 [[0, 1], [5, -1]] [[2], [3]] (by decide) (by decide)⟩
/-- C6: the returned scalar total equals `mse_weight` times the numeric-feature sum plus
`CE_weight` times the sum of the per-categorical-feature cross-entropies plus
`delta_weight` times the masked delta loss; the unweighted numeric and cross-entropy
components are the `total_mse_loss` / `total_CE_loss` entries, the cross-entropy total
is the sum of the per-feature criterion values, and the numeric total is the sum of the
per-feature masked averages. -/
theorem c6_total_weighted_sum (conf : ModelConf) (allNumericSize : ℕ)
    (embNames : List String) (x predIn : T3 ℝ) (payload : List (String × Mat ℚ))
    (timeSteps : Mat ℚ) (embDist : List (String × T3 ℝ))
    (hcat : 0 < embDist.length)
    (hname : "total_loss" ∉ embDist.map Prod.fst) :
    List.lookup "total_loss"
        (BaseMixin.loss conf allNumericSize embNames x predIn payload timeSteps embDist) =
      some (conf.mse_weight * lossTotalMse conf allNumericSize embNames predIn payload +
        conf.CE_weight * lossTotalCe embDist payload +
        conf.delta_weight * lossDeltaVal conf predIn timeSteps) ∧
    List.lookup "total_mse_loss"
        (BaseMixin.loss conf allNumericSize embNames x predIn payload timeSteps embDist) =
      some (lossTotalMse conf allNumericSize embNames predIn payload) ∧
    List.lookup "total_CE_loss"
        (BaseMixin.loss conf allNumericSize embNames x predIn payload timeSteps embDist) =
      some (lossTotalCe embDist payload) ∧
    lossTotalCe embDist payload =
      (embDist.map fun nd =>
        EmbeddingPredictor.criterion nd.2 (shiftedLabels (payloadGet payload nd.1))).sum ∧
    lossTotalMse conf allNumericSize embNames predIn payload =
      ((List.range (payload.filter fun kv => !(decide (kv.1 ∈ embNames))).length).map
        fun i => featureMse
          (((payload.filter fun kv => !(decide (kv.1 ∈ embNames))).getD i ("", [])).2.map
            (List.drop 1))
          (sliceChannel (lossPred conf predIn)
            (-((allNumericSize : ℤ) - (i : ℤ))))).sum := by
  refine ⟨loss_lookup_total conf allNumericSize embNames x predIn payload timeSteps
      embDist hname,
    loss_lookup_mse conf allNumericSize embNames x predIn payload timeSteps embDist,
    loss_lookup_ce conf allNumericSize embNames x predIn payload timeSteps embDist,
    ?_, ?_⟩
  · unfold lossTotalCe EmbeddingPredictor.loss
    rw [List.map_map]
    rfl
  · unfold lossTotalMse
    rw [mseLoop_eq_sum]
    dsimp only
    rw [zero_add]

/-- Witness for C6 at a concrete one-categorical-feature invocation. -/
theorem c6_total_weighted_sum_witness :
    (0 < ([(("mcc" : String), ([[[0, 1]]] : T3 ℝ))] : List (String × T3 ℝ)).length ∧
      "total_loss" ∉
        ([(("mcc" : String), ([[[0, 1]]] : T3 ℝ))].map Prod.fst)) ∧
    List.lookup "total_loss"
        (BaseMixin.loss ⟨false, 1, 1, 1⟩ 0 ["mcc"] [] [[[0]]] [("mcc", [[0, 1]])] []
          [("mcc", [[[0, 1]]])]) =
      some ((⟨false, 1, 1, 1⟩ : ModelConf).mse_weight *
          lossTotalMse ⟨false, 1, 1, 1⟩ 0 ["mcc"] [[[0]]] [("mcc", [[0, 1]])] +
        (⟨false, 1, 1, 1⟩ : ModelConf).CE_weight *
          lossTotalCe [("mcc", [[[0, 1]]])] [("mcc", [[0, 1]])] +
        (⟨false, 1, 1, 1⟩ : ModelConf).delta_weight *
          lossDeltaVal ⟨false, 1, 1, 1⟩ [[[0]]] []) :=
  ⟨⟨by decide, by decide⟩,
    (c6_total_weighted_sum ⟨false, 1, 1, 1⟩ 0 ["mcc"] [] [[[0]]] [("mcc", [[0, 1]])] []
      [("mcc", [[[0, 1]]])] (by decide) (by decide)).1⟩

/-- C2 counterexample: with `delta_weight = 2` and a nonzero masked delta loss, the
`delta_loss` entry of the returned breakdown is NOT the unweighted masked delta loss
(the code stores `delta_weight * delta_mse`). -/
theorem c2_delta_entry_weighted :
    ¬ (List.lookup "delta_loss"
        (BaseMixin.loss ⟨true, 1, 1, 2⟩ 0 ["mcc"] [] [[[0, 3]]] [("mcc", [[0, 1]])]
          [[0, 1]] [("mcc", [[[0, 1]]])]) =
      some (deltaMseVal [[0, 1]] (lastChannel [[[0, 3]]]))) := by
  intro h
  rw [loss_lookup_delta] at h
  simp only [Option.some.injEq] at h
  have hl : lossDeltaVal ⟨true, 1, 1, 2⟩ [[[0, 3]]] [[0, 1]] =
      deltaMseVal [[0, 1]] (lastChannel [[[0, 3]]]) := by
    simp [lossDeltaVal, lossPredDelta]
  have hv : deltaMseVal [[0, 1]] (lastChannel [[[0, 3]]]) = 4 := by
    norm_num [deltaMseVal, deltaMasked, deltaMaskCount, applyMask, mseRow, maskDeltaRow,
      diffRow, lastChannel, List.count_cons]
  rw [hl, hv] at h
  norm_num at h

/-- C2 (amended): the returned breakdown always contains the keys `total_mse_loss`,
`total_CE_loss`, `delta_loss`, one key per categorical feature, and `total_loss`,
regardless of the mixing weights; the `delta_loss` entry equals `delta_weight` TIMES the
unweighted masked delta loss (zero when deltas are disabled). -/
theorem c2_breakdown_entries (conf : ModelConf) (allNumericSize : ℕ)
    (embNames : List String) (x predIn : T3 ℝ) (payload : List (String × Mat ℚ))
    (timeSteps : Mat ℚ) (embDist : List (String × T3 ℝ))
    (hcat : 0 < embDist.length)
    (hdisj : ∀ nm ∈ embDist.map Prod.fst,
      nm ∉ (["total_mse_loss", "total_CE_loss", "delta_loss", "total_loss"] :
        List String)) :
    (BaseMixin.loss conf allNumericSize embNames x predIn payload timeSteps
        embDist).map Prod.fst =
      ["total_mse_loss", "total_CE_loss", "delta_loss"] ++ embDist.map Prod.fst ++
        ["total_loss"] ∧
    List.lookup "delta_loss"
        (BaseMixin.loss conf allNumericSize embNames x predIn payload timeSteps embDist) =
      some (conf.delta_weight * lossDeltaVal conf predIn timeSteps) ∧
    lossDeltaVal conf predIn timeSteps =
      (if conf.use_deltas then deltaMseVal timeSteps (lastChannel predIn) else 0) := by
  refine ⟨loss_keys conf allNumericSize embNames x predIn payload timeSteps embDist,
    loss_lookup_delta conf allNumericSize embNames x predIn payload timeSteps embDist,
    ?_⟩
  cases h : conf.use_deltas <;> simp [lossDeltaVal, lossPredDelta, h]

/-- Witness for C2 (amended) at a concrete invocation. -/
theorem c2_breakdown_entries_witness :
    (0 < ([(("mcc" : String), ([[[0, 1]]] : T3 ℝ))] : List (String × T3 ℝ)).length ∧
      (∀ nm ∈ ([(("mcc" : String), ([[[0, 1]]] : T3 ℝ))].map Prod.fst),
        nm ∉ (["total_mse_loss", "total_CE_loss", "delta_loss", "total_loss"] :
          List String))) ∧
    (BaseMixin.loss ⟨true, 1, 1, 2⟩ 0 ["mcc"] [] [[[0, 3]]] [("mcc", [[0, 1]])]
        [[0, 1]] [("mcc", [[[0, 1]]])]).map Prod.fst =
      ["total_mse_loss", "total_CE_loss", "delta_loss"] ++
        ([(("mcc" : String), ([[[0, 1]]] : T3 ℝ))].map Prod.fst) ++ ["total_loss"] :=
  ⟨⟨by decide, by decide⟩,
    (c2_breakdown_entries ⟨true, 1, 1, 2⟩ 0 ["mcc"] [] [[[0, 3]]] [("mcc", [[0, 1]])]
      [[0, 1]] [("mcc", [[[0, 1]]])] (by decide) (by decide)).1⟩

/-- C1 counterexample: at a concrete invocation the per-feature categorical loss value
returned by the full model loss is NOT the label-smoothed (0.15) cross-entropy
(`BaseMixin.ce_fn`): the full model loss returns the unsmoothed criterion value. -/
theorem c1_smoothed_ce_not_returned :
    ¬ (List.lookup "mcc"
        (BaseMixin.loss ⟨false, 1, 1, 1⟩ 0 ["mcc"] [] [[[0]]] [("mcc", [[0, 1]])] []
          [("mcc", [[[0, 1]]])]) =
      some (BaseMixin.ce_fn [[[0, 1]]] (shiftedLabels [[0, 1]]))) := by
  intro h
  rw [loss_lookup_feature ⟨false, 1, 1, 1⟩ 0 ["mcc"] [] [[[0]]] [("mcc", [[0, 1]])] []
    [("mcc", [[[0, 1]]])] "mcc" [[[0, 1]]] rfl (by decide) (by decide) (by decide)] at h
  simp only [Option.some.injEq] at h
  norm_num [EmbeddingPredictor.criterion, BaseMixin.ce_fn, ceMean, ceSample,
    shiftedLabels, payloadGet, pyLong, List.lookup] at h

/-- C1 (amended): the per-feature categorical loss values returned by the full model
loss are the UNSMOOTHED cross-entropies with ignore index 0 computed by
`EmbeddingPredictor.criterion`; the label-smoothing-0.15 function `BaseMixin.ce_fn` is
constructed by `BaseMixin.__init__` but not applied by the loss, so the full model loss
and the standalone per-feature classification head loss use the same unsmoothed
configuration. -/
theorem c1_unsmoothed_ce_returned (conf : ModelConf) (allNumericSize : ℕ)
    (embNames : List String) (x predIn : T3 ℝ) (payload : List (String × Mat ℚ))
    (timeSteps : Mat ℚ) (embDist : List (String × T3 ℝ)) (name : String) (dist : T3 ℝ)
    (h1 : List.lookup name embDist = some dist)
    (h2 : name ≠ "total_mse_loss") (h3 : name ≠ "total_CE_loss")
    (h4 : name ≠ "delta_loss") :
    List.lookup name
        (BaseMixin.loss conf allNumericSize embNames x predIn payload timeSteps embDist) =
      some (EmbeddingPredictor.criterion dist
        (shiftedLabels (payloadGet payload name))) ∧
    EmbeddingPredictor.criterion = ceMean 0 0 ∧
    BaseMixin.ce_fn = ceMean (15 / 100) 0 :=
  ⟨loss_lookup_feature conf allNumericSize embNames x predIn payload timeSteps embDist
      name dist h1 h2 h3 h4, rfl, rfl⟩

/-- Witness for C1 (amended) at a concrete invocation. -/
theorem c1_unsmoothed_ce_returned_witness :
    (List.lookup "mcc" ([(("mcc" : String), ([[[0, 1]]] : T3 ℝ))]) =
        some ([[[0, 1]]] : T3 ℝ) ∧
      ("mcc" : String) ≠ "total_mse_loss" ∧ ("mcc" : String) ≠ "total_CE_loss" ∧
      ("mcc" : String) ≠ "delta_loss") ∧
    List.lookup "mcc"
        (BaseMixin.loss ⟨false, 1, 1, 1⟩ 0 ["mcc"] [] [[[0]]] [("mcc", [[0, 1]])] []
          [("mcc", [[[0, 1]]])]) =
      some (EmbeddingPredictor.criterion [[[0, 1]]]
        (shiftedLabels (payloadGet [("mcc", [[0, 1]])] "mcc"))) :=
  ⟨⟨rfl, by decide, by decide, by decide⟩,
    (c1_unsmoothed_ce_returned ⟨false, 1, 1, 1⟩ 0 ["mcc"] [] [[[0]]]
      [("mcc", [[0, 1]])] [] [("mcc", [[[0, 1]]])] "mcc" [[[0, 1]]] rfl (by decide)
      (by decide) (by decide)).1⟩
end MLEM
